import Mathlib

/-!
Shallow embedding of `src/react/features/mobile/external-api/middleware.js`
(the external-API event bridge of the mobile app).

JavaScript values relevant to the middleware are modelled by the inductive
type `Value`; a JS object (such as a redux action, or the `data` payload of an
outbound event) is modelled as an association list of string keys and values,
with JS object-spread/rest destructuring modelled by `jsGet` / `jsRemove` /
`jsSet`.  Code that can throw a `TypeError` (property access on `null` /
`undefined`, `Error.prototype.toString` applied to a primitive receiver) is
modelled in the `Except JsErr` monad.
-/

set_option autoImplicit false

namespace ExternalApiBridge

/-- A JavaScript `Symbol`, identified by its description string (all the
symbols handled by the middleware are created via `Symbol(description)`). -/
structure Sym where
  descr : String
deriving DecidableEq, Repr

/-- The only exception the modelled code can raise: a JS `TypeError`
(property access on `null`/`undefined`, or a native method applied to a
receiver of the wrong type). -/
inductive JsErr where
  | typeError
deriving DecidableEq, Repr

/-- An Error-like JS object: a native `Error` instance or a plain object
resembling one, exposing optional `name` / `message` fields, and (for the
errors carried by conference-failed actions) an optional `recoverable`
flag. -/
structure ErrLike where
  name : Option String
  message : Option String
  recoverable : Option Bool
deriving DecidableEq, Repr

/-- The JS values that can appear in the actions and event payloads handled
by the middleware.  A conference handle (`handle`) is opaque except for the
URL value stored under the well-known `JITSI_CONFERENCE_URL_KEY`; `urlObj`
is a `URL` instance identified by its `href`. -/
inductive Value where
  | undefined
  | null
  | bool (b : Bool)
  | num (n : Int)
  | str (s : String)
  | sym (s : Sym)
  | obj (o : ErrLike)
  | handle (url : Value)
  | urlObj (href : String)
deriving DecidableEq, Repr

/-- JS truthiness of a value. -/
def truthy : Value → Bool
  | .undefined => false
  | .null => false
  | .bool b => b
  | .num n => n != 0
  | .str s => s != ""
  | .sym _ => true
  | .obj _ => true
  | .handle _ => true
  | .urlObj _ => true

/-- A JS object, as the middleware sees one: an association list from string
keys to values (a real JS object has each key at most once; the operations
below follow first-occurrence semantics, which coincides on such lists). -/
abbrev JsObj : Type := List (String × Value)

/-- Property read `o.k`: the value at key `k`, or `undefined` when absent. -/
def jsGet : JsObj → String → Value
  | [], _ => .undefined
  | p :: rest, k => if p.1 = k then p.2 else jsGet rest k

/-- Whether the object has key `k`. -/
def jsHasKey : JsObj → String → Bool
  | [], _ => false
  | p :: rest, k => if p.1 = k then true else jsHasKey rest k

/-- Rest-destructuring `const { k, ...data } = o`: the object without key
`k`. -/
def jsRemove : JsObj → String → JsObj
  | [], _ => []
  | p :: rest, k => if p.1 = k then jsRemove rest k else p :: jsRemove rest k

/-- Property assignment `o.k = v`: replace the value at key `k`, or append
the binding when the key is absent. -/
def jsSet : JsObj → String → Value → JsObj
  | [], k, v => [(k, v)]
  | p :: rest, k, v => if p.1 = k then (k, v) :: rest else p :: jsSet rest k v

/-- JS `String.prototype.startsWith` on the character lists of the model. -/
def jsStartsWith (s p : String) : Bool := p.data.isPrefixOf s.data

/-- JS `String.prototype.endsWith`. -/
def jsEndsWith (s p : String) : Bool := p.data.isSuffixOf s.data

/-- JS `s.slice(7, -1)`: drop the first seven characters and the last one. -/
def jsSlice7Neg1 (s : String) : String := ⟨(s.data.drop 7).dropLast⟩

/-- JS `s.slice(2)`: drop the first two characters. -/
def jsDrop2 (s : String) : String := ⟨s.data.drop 2⟩

/-- JS `Symbol.prototype.toString`: renders `Symbol(description)`. -/
def symToString (s : Sym) : String := ⟨"Symbol(".data ++ s.descr.data ++ ")".data⟩

/-- JS `v.toString()` (only ever reached on symbols in the middleware; a
`null`/`undefined` receiver throws a `TypeError`). -/
def jsToString : Value → Except JsErr String
  | .undefined => .error .typeError
  | .null => .error .typeError
  | .bool b => .ok (if b then "true" else "false")
  | .num n => .ok (toString n)
  | .str s => .ok s
  | .sym s => .ok (symToString s)
  | .obj _ => .ok "[object Object]"
  | .handle _ => .ok "[object Object]"
  | .urlObj href => .ok href

/-- JS property access `error.recoverable`: throws a `TypeError` on
`null`/`undefined`; on a primitive the access is boxed and yields
`undefined`; on an Error-like object it reads the stored flag. -/
def getRecoverable : Value → Except JsErr Value
  | .undefined => .error .typeError
  | .null => .error .typeError
  | .obj o =>
      .ok (match o.recoverable with
        | some b => .bool b
        | none => .undefined)
  | _ => .ok .undefined

/-- The ECMAScript rendering performed by `Error.prototype.toString`
(ES2015 19.5.3.4) once the receiver is known to be an object: `name`
defaults to `"Error"`, `message` to `""`, and the result is `name`,
`message`, or `name ++ ": " ++ message` as each is empty or not. -/
def errorProtoRender (name message : Option String) : String :=
  let n := name.getD "Error"
  let m := message.getD ""
  if n = "" then m else if m = "" then n else n ++ ": " ++ m

/-- JS `Error.prototype.toString.apply(v)`: a non-object receiver (number,
boolean, symbol) throws a `TypeError`; an object renders via
`errorProtoRender` (a conference handle or URL instance has no `name` /
`message` own properties, so it renders as `"Error"`). -/
def errorProtoToString : Value → Except JsErr String
  | .obj o => .ok (errorProtoRender o.name o.message)
  | .handle _ => .ok (errorProtoRender none none)
  | .urlObj _ => .ok (errorProtoRender none none)
  | _ => .error .typeError

/-- Embedding of `_toErrorString` from the middleware:
`error ? (typeof error === 'string' ? error : Error.prototype.toString.apply(error)) : ''`. -/
def _toErrorString (error : Value) : Except JsErr String :=
  if truthy error then
    match error with
    | .str s => .ok s
    | e => errorProtoToString e
  else .ok ""

/-- Embedding of `_getSymbolDescription` from the middleware: take
`symbol.toString()`, strip a `Symbol(`…`)` wrapper when present, then strip
a leading `@@` sigil (the es6-symbol polyfill accommodation) when present. -/
def _getSymbolDescription (symbol : Value) : Except JsErr String :=
  match jsToString symbol with
  | .error e => .error e
  | .ok d =>
    let description := if jsStartsWith d "Symbol(" && jsEndsWith d ")" then jsSlice7Neg1 d else d
    let description := if jsStartsWith description "@@" then jsDrop2 description else description
    .ok description

/-- Modelled from the spec: `toURLString` from `base/util` is not under
`src/`.  Per the spec it normalizes "a URL-like value, string or structured"
to "the normalized URL string" (a non-empty string URL is the string itself,
a structured URL value yields its canonical `href`), and a missing value
yields no URL. -/
def toURLString : Value → Value
  | .str s => if s = "" then .undefined else .str s
  | .urlObj href => .str href
  | _ => .undefined

/-- Modelled from the spec: the well-known URL accessor of the opaque
conference handle (`conference[JITSI_CONFERENCE_URL_KEY]`; the key symbol is
declared in `base/conference`, not under `src/`).  Reading it on any other
(truthy) value finds no such property and yields `undefined`. -/
def getJitsiConferenceUrl : Value → Value
  | .handle url => url
  | _ => .undefined

/-- The props of the mounted `App` component: the middleware only reads
`externalAPIScope`. -/
structure AppProps where
  externalAPIScope : Value
deriving DecidableEq, Repr

/-- The slice of redux state read by `_sendEvent`:
`getState()['features/app']` is `{ app }`, where `app` is the mounted `App`
component (or `undefined` when no host surface is mounted). -/
structure AppSt where
  app : Option AppProps
deriving DecidableEq, Repr

/-- One call to `NativeModules.ExternalAPI.sendEvent(name, data, scope)`. -/
structure SendCall where
  name : String
  data : JsObj
  scope : Value
deriving DecidableEq, Repr

/-- Embedding of `_sendEvent` from the middleware: read the mounted app from
state; when it is mounted and its `externalAPIScope` is truthy, perform
exactly one native `sendEvent` call; otherwise perform none.  The returned
list is the list of calls performed. -/
def _sendEvent (state : AppSt) (name : String) (data : JsObj) : List SendCall :=
  match state.app with
  | none => []
  | some a => if truthy a.externalAPIScope then [⟨name, data, a.externalAPIScope⟩] else []

/-- Modelled from the spec: the action-kind symbols imported from
`base/conference` (not under `src/`).  They are unique symbolic tags; only
their identity matters for the dispatch match, and their descriptive label
feeds the name derivation. -/
def CONFERENCE_FAILED : Sym := ⟨"CONFERENCE_FAILED"⟩

/-- Modelled from the spec: see `CONFERENCE_FAILED`. -/
def CONFERENCE_JOINED : Sym := ⟨"CONFERENCE_JOINED"⟩

/-- Modelled from the spec: see `CONFERENCE_FAILED`. -/
def CONFERENCE_LEFT : Sym := ⟨"CONFERENCE_LEFT"⟩

/-- Modelled from the spec: see `CONFERENCE_FAILED`. -/
def CONFERENCE_WILL_JOIN : Sym := ⟨"CONFERENCE_WILL_JOIN"⟩

/-- Modelled from the spec: see `CONFERENCE_FAILED`. -/
def CONFERENCE_WILL_LEAVE : Sym := ⟨"CONFERENCE_WILL_LEAVE"⟩

/-- Modelled from the spec: the load-config failure tag imported from
`base/config` (not under `src/`).  The spec describes it as "a unique
symbolic tag identifying the specific load-failure variant", and its
end-to-end example fixes the label of the fetch-failure variant as
`config.fetch.error`. -/
def LOAD_CONFIG_ERROR : Sym := ⟨"config.fetch.error"⟩

/-- Embedding of `_sendConferenceEvent` from the middleware: destructure
`{ conference, type, ...data }`, set `data.url` from the conference handle's
URL when the handle is truthy, and send one event named by the symbol
description of `type`. -/
def _sendConferenceEvent (state : AppSt) (action : JsObj) : Except JsErr (List SendCall) :=
  let conference := jsGet action "conference"
  let type := jsGet action "type"
  let data := jsRemove (jsRemove action "conference") "type"
  let data :=
    if truthy conference then
      jsSet data "url" (toURLString (getJitsiConferenceUrl conference))
    else data
  match _getSymbolDescription type with
  | .error e => .error e
  | .ok name => .ok (_sendEvent state name data)

/-- Embedding of the `switch (action.type)` body of the registered
middleware.  The result is the list of native `sendEvent` calls performed
for the action, or the JS exception the handler threw. -/
def middlewareHandle (state : AppSt) (action : JsObj) : Except JsErr (List SendCall) :=
  let t := jsGet action "type"
  if t = .sym CONFERENCE_FAILED then
    -- const { error, ...data } = action;
    let error := jsGet action "error"
    let data := jsRemove action "error"
    -- if (!error.recoverable) { _sendConferenceEvent(store, { error: _toErrorString(error), ...data }); }
    match getRecoverable error with
    | .error e => .error e
    | .ok r =>
      if truthy r then .ok []
      else
        match _toErrorString error with
        | .error e => .error e
        | .ok es => _sendConferenceEvent state (("error", .str es) :: data)
  else if t = .sym CONFERENCE_JOINED ∨ t = .sym CONFERENCE_LEFT ∨
      t = .sym CONFERENCE_WILL_JOIN ∨ t = .sym CONFERENCE_WILL_LEAVE then
    _sendConferenceEvent state action
  else if t = .sym LOAD_CONFIG_ERROR then
    -- const { error, locationURL, type } = action;
    let error := jsGet action "error"
    let locationURL := jsGet action "locationURL"
    match _getSymbolDescription t with
    | .error e => .error e
    | .ok name =>
      match _toErrorString error with
      | .error e => .error e
      | .ok es => .ok (_sendEvent state name [("error", .str es), ("url", toURLString locationURL)])
  else .ok []

/-- An observable effect of one middleware invocation: the call to the next
handler in the chain, or a native `sendEvent` call. -/
inductive Effect where
  | callNext (action : JsObj)
  | sendEvent (name : String) (data : JsObj) (scope : Value)
deriving DecidableEq, Repr

/-- Whether an effect is the call to the next handler. -/
def isCallNext : Effect → Bool
  | .callNext _ => true
  | .sendEvent _ _ _ => false

/-- Embedding of the registered middleware `store => next => action => ...`:
it first calls `next(action)`, then runs the switch body (every branch of
which throws, if at all, before performing its single send), and returns
`next`'s result — unless the switch body threw, in which case the exception
propagates.  The first component is the ordered trace of observable effects,
the second the middleware's own outcome. -/
def bridge {ρ : Type} (state : AppSt) (next : JsObj → ρ) (action : JsObj) :
    List Effect × Except JsErr ρ :=
  let result := next action
  match middlewareHandle state action with
  | .ok sends => (.callNext action :: sends.map (fun c => .sendEvent c.name c.data c.scope), .ok result)
  | .error e => ([.callNext action], .error e)

/-- The native `sendEvent` calls the middleware performs for an action (none
when the handler throws, since every branch throws before its send). -/
def bridgeSends (state : AppSt) (action : JsObj) : List SendCall :=
  match middlewareHandle state action with
  | .ok sends => sends
  | .error _ => []

/-- Whether a value is a primitive or a string — the shapes the spec allows
in an outbound event's `data` (with `undefined`/`null` standing for an
absent value). -/
def primOrStr : Value → Bool
  | .undefined => true
  | .null => true
  | .bool _ => true
  | .num _ => true
  | .str _ => true
  | .sym _ => false
  | .obj _ => false
  | .handle _ => false
  | .urlObj _ => false

/-! ### Lemmas about the JS object operations -/

theorem jsGet_remove_ne (o : JsObj) (kr k : String) (h : kr ≠ k) :
    jsGet (jsRemove o kr) k = jsGet o k := by
  induction o with
  | nil => rfl
  | cons p rest ih =>
    by_cases hp : p.1 = kr
    · have hk : ¬p.1 = k := by rw [hp]; exact h
      simp [jsRemove, jsGet, hp, hk, ih, h, h.symm]
    · by_cases hk : p.1 = k
      · simp [jsRemove, jsGet, hp, hk, ih, h, h.symm]
      · simp [jsRemove, jsGet, hp, hk, ih, h, h.symm]

theorem jsHasKey_remove_self (o : JsObj) (k : String) :
    jsHasKey (jsRemove o k) k = false := by
  induction o with
  | nil => rfl
  | cons p rest ih =>
    by_cases hp : p.1 = k
    · simp [jsRemove, hp, ih]
    · simp [jsRemove, jsHasKey, hp, ih]

theorem jsHasKey_remove_ne (o : JsObj) (kr k : String) (h : kr ≠ k) :
    jsHasKey (jsRemove o kr) k = jsHasKey o k := by
  induction o with
  | nil => rfl
  | cons p rest ih =>
    by_cases hp : p.1 = kr
    · have hk : ¬p.1 = k := by rw [hp]; exact h
      simp [jsRemove, jsHasKey, hp, hk, ih, h, h.symm]
    · by_cases hk : p.1 = k
      · simp [jsRemove, jsHasKey, hp, hk, ih, h, h.symm]
      · simp [jsRemove, jsHasKey, hp, hk, ih, h, h.symm]

theorem jsGet_set_self (o : JsObj) (k : String) (v : Value) :
    jsGet (jsSet o k v) k = v := by
  induction o with
  | nil => simp [jsSet, jsGet]
  | cons p rest ih =>
    by_cases hp : p.1 = k
    · simp [jsSet, jsGet, hp]
    · simp [jsSet, jsGet, hp, ih]

theorem jsGet_set_ne (o : JsObj) (k k' : String) (v : Value) (h : k' ≠ k) :
    jsGet (jsSet o k v) k' = jsGet o k' := by
  induction o with
  | nil => simp [jsSet, jsGet, h, h.symm]
  | cons p rest ih =>
    by_cases hp : p.1 = k
    · have hpk : ¬p.1 = k' := by rw [hp]; exact h.symm
      simp [jsSet, jsGet, hp, hpk, h, h.symm]
    · by_cases hk : p.1 = k'
      · simp [jsSet, jsGet, hp, hk, h, h.symm]
      · simp [jsSet, jsGet, hp, hk, ih, h, h.symm]

theorem jsHasKey_set_ne (o : JsObj) (k k' : String) (v : Value) (h : k' ≠ k) :
    jsHasKey (jsSet o k v) k' = jsHasKey o k' := by
  induction o with
  | nil => simp [jsSet, jsHasKey, h, h.symm]
  | cons p rest ih =>
    by_cases hp : p.1 = k
    · have hpk : ¬p.1 = k' := by rw [hp]; exact h.symm
      simp [jsSet, jsHasKey, hp, hpk, h, h.symm]
    · by_cases hk : p.1 = k'
      · simp [jsSet, jsHasKey, hp, hk, h, h.symm]
      · simp [jsSet, jsHasKey, hp, hk, ih, h, h.symm]

theorem mem_of_mem_jsRemove (o : JsObj) (kr : String) (p : String × Value) :
    p ∈ jsRemove o kr → p ∈ o ∧ p.1 ≠ kr := by
  induction o with
  | nil => intro h; exact absurd h (List.not_mem_nil p)
  | cons q rest ih =>
    intro h
    by_cases hq : q.1 = kr
    · rw [show jsRemove (q :: rest) kr = jsRemove rest kr by simp [jsRemove, hq]] at h
      exact ⟨List.mem_cons_of_mem q (ih h).1, (ih h).2⟩
    · rw [show jsRemove (q :: rest) kr = q :: jsRemove rest kr by simp [jsRemove, hq]] at h
      rcases List.mem_cons.mp h with h | h
      · refine ⟨List.mem_cons.mpr (Or.inl h), ?_⟩
        rw [h]
        exact hq
      · exact ⟨List.mem_cons_of_mem q (ih h).1, (ih h).2⟩

theorem mem_of_mem_jsSet (o : JsObj) (k : String) (v : Value) (p : String × Value) :
    p ∈ jsSet o k v → p = (k, v) ∨ p ∈ o := by
  induction o with
  | nil =>
    intro h
    rw [show jsSet [] k v = [(k, v)] from rfl] at h
    exact Or.inl (List.mem_singleton.mp h)
  | cons q rest ih =>
    intro h
    by_cases hq : q.1 = k
    · rw [show jsSet (q :: rest) k v = (k, v) :: rest by simp [jsSet, hq]] at h
      rcases List.mem_cons.mp h with h | h
      · exact Or.inl h
      · exact Or.inr (List.mem_cons_of_mem q h)
    · rw [show jsSet (q :: rest) k v = q :: jsSet rest k v by simp [jsSet, hq]] at h
      rcases List.mem_cons.mp h with h | h
      · exact Or.inr (List.mem_cons.mpr (Or.inl h))
      · rcases ih h with h | h
        · exact Or.inl h
        · exact Or.inr (List.mem_cons_of_mem q h)

/-! ### Lemmas about the send primitives -/

theorem sendEvent_no_scope (state : AppSt)
    (h : state.app = none ∨ ∃ p, state.app = some p ∧ truthy p.externalAPIScope = false)
    (name : String) (data : JsObj) : _sendEvent state name data = [] := by
  rcases h with h | ⟨p, hp, hs⟩
  · simp [_sendEvent, h]
  · simp [_sendEvent, hp, hs]

theorem sendEvent_of_scope (state : AppSt) (p : AppProps)
    (happ : state.app = some p) (hsc : truthy p.externalAPIScope = true)
    (name : String) (data : JsObj) :
    _sendEvent state name data = [⟨name, data, p.externalAPIScope⟩] := by
  simp [_sendEvent, happ, hsc]

theorem mem_sendEvent_elim (state : AppSt) (name : String) (data : JsObj) (c : SendCall)
    (h : c ∈ _sendEvent state name data) :
    c.name = name ∧ c.data = data ∧
      ∃ p, state.app = some p ∧ c.scope = p.externalAPIScope := by
  cases hA : state.app with
  | none =>
    rw [sendEvent_no_scope state (Or.inl hA) name data] at h
    exact absurd h (List.not_mem_nil c)
  | some p =>
    cases hs : truthy p.externalAPIScope with
    | true =>
      rw [sendEvent_of_scope state p hA hs name data] at h
      rw [List.mem_singleton.mp h]
      exact ⟨rfl, rfl, p, rfl, rfl⟩
    | false =>
      rw [sendEvent_no_scope state (Or.inr ⟨p, hA, hs⟩) name data] at h
      exact absurd h (List.not_mem_nil c)

/-! ### The symbol-description derivation, in closed form -/

theorem getSymbolDescription_descr (d : String) :
    _getSymbolDescription (.sym ⟨d⟩) =
      .ok (if jsStartsWith d "@@" then jsDrop2 d else d) := by
  have hpre : jsStartsWith (symToString ⟨d⟩) "Symbol(" = true := by
    show ("Symbol(".data).isPrefixOf ("Symbol(".data ++ d.data ++ ")".data) = true
    exact List.isPrefixOf_iff_prefix.mpr
      (by rw [List.append_assoc]; exact List.prefix_append _ _)
  have hsuf : jsEndsWith (symToString ⟨d⟩) ")" = true := by
    show (")".data).isSuffixOf ("Symbol(".data ++ d.data ++ ")".data) = true
    exact List.isSuffixOf_iff_suffix.mpr (List.suffix_append _ _)
  have hslice : jsSlice7Neg1 (symToString ⟨d⟩) = d := by
    show (⟨(("Symbol(".data ++ d.data ++ ")".data).drop 7).dropLast⟩ : String) = d
    rw [List.append_assoc, List.drop_left' (by rfl),
      show (")".data) = [')'] from rfl, List.dropLast_concat]
  simp only [_getSymbolDescription, jsToString, hpre, hsuf, Bool.and_self, if_true, hslice]

theorem sendConferenceEvent_eq (state : AppSt) (o : JsObj) (t : Sym)
    (ht : jsGet o "type" = .sym t) :
    _sendConferenceEvent state o = .ok (_sendEvent state
      (if jsStartsWith t.descr "@@" then jsDrop2 t.descr else t.descr)
      (if truthy (jsGet o "conference") then
          jsSet (jsRemove (jsRemove o "conference") "type") "url"
            (toURLString (getJitsiConferenceUrl (jsGet o "conference")))
        else jsRemove (jsRemove o "conference") "type")) := by
  have hdesc := getSymbolDescription_descr t.descr
  rw [show (⟨t.descr⟩ : Sym) = t from rfl] at hdesc
  have hbody : _sendConferenceEvent state o =
      match _getSymbolDescription (jsGet o "type") with
      | .error e => .error e
      | .ok name => .ok (_sendEvent state name
          (if truthy (jsGet o "conference") then
            jsSet (jsRemove (jsRemove o "conference") "type") "url"
              (toURLString (getJitsiConferenceUrl (jsGet o "conference")))
          else jsRemove (jsRemove o "conference") "type")) := rfl
  rw [hbody, ht, hdesc]

/-! ### Properties of the conference-event data transform -/

theorem conf_data_props (o : JsObj) (dta : JsObj)
    (hdta : dta = if truthy (jsGet o "conference") then
        jsSet (jsRemove (jsRemove o "conference") "type") "url"
          (toURLString (getJitsiConferenceUrl (jsGet o "conference")))
      else jsRemove (jsRemove o "conference") "type") :
    jsHasKey dta "conference" = false ∧
    jsHasKey dta "type" = false ∧
    (∀ k, k ≠ "conference" → k ≠ "type" → k ≠ "url" → jsGet dta k = jsGet o k) ∧
    (∀ u, jsGet o "conference" = .handle u → jsGet dta "url" = toURLString u) ∧
    (truthy (jsGet o "conference") = false →
      jsHasKey dta "url" = jsHasKey o "url" ∧ jsGet dta "url" = jsGet o "url") := by
  by_cases hc : truthy (jsGet o "conference") = true
  · rw [if_pos hc] at hdta
    subst hdta
    refine ⟨?_, ?_, ?_, ?_, ?_⟩
    · rw [jsHasKey_set_ne _ _ _ _ (by decide),
        jsHasKey_remove_ne _ _ _ (by decide), jsHasKey_remove_self]
    · rw [jsHasKey_set_ne _ _ _ _ (by decide), jsHasKey_remove_self]
    · intro k hk1 hk2 hk3
      rw [jsGet_set_ne _ _ _ _ hk3,
        jsGet_remove_ne _ _ _ (fun h => hk2 h.symm),
        jsGet_remove_ne _ _ _ (fun h => hk1 h.symm)]
    · intro u hu
      rw [jsGet_set_self, hu]
      rfl
    · intro hf; rw [hf] at hc; exact Bool.noConfusion hc
  · have hc' : truthy (jsGet o "conference") = false := by
      cases h : truthy (jsGet o "conference")
      · rfl
      · exact absurd h hc
    rw [if_neg hc] at hdta
    subst hdta
    refine ⟨?_, ?_, ?_, ?_, ?_⟩
    · rw [jsHasKey_remove_ne _ _ _ (by decide), jsHasKey_remove_self]
    · rw [jsHasKey_remove_self]
    · intro k hk1 hk2 _
      rw [jsGet_remove_ne _ _ _ (fun h => hk2 h.symm),
        jsGet_remove_ne _ _ _ (fun h => hk1 h.symm)]
    · intro u hu
      rw [hu] at hc'
      exact absurd hc' (by simp [truthy])
    · intro _
      constructor
      · rw [jsHasKey_remove_ne _ _ _ (by decide), jsHasKey_remove_ne _ _ _ (by decide)]
      · rw [jsGet_remove_ne _ _ _ (by decide), jsGet_remove_ne _ _ _ (by decide)]

theorem sendConferenceEvent_ok_mem (state : AppSt) (o : JsObj) (sends : List SendCall)
    (hh : _sendConferenceEvent state o = .ok sends) (c : SendCall) (hc : c ∈ sends) :
    ∃ n d, c ∈ _sendEvent state n d := by
  simp only [_sendConferenceEvent] at hh
  split at hh
  · exact Except.noConfusion hh
  · injection hh with hh
    subst hh
    exact ⟨_, _, hc⟩

theorem bridgeSends_mem_sendEvent (state : AppSt) (a : JsObj) (c : SendCall)
    (hc : c ∈ bridgeSends state a) : ∃ n d, c ∈ _sendEvent state n d := by
  unfold bridgeSends at hc
  cases hh : middlewareHandle state a with
  | error e => rw [hh] at hc; exact absurd hc (List.not_mem_nil c)
  | ok sends =>
    rw [hh] at hc
    simp only [middlewareHandle] at hh
    split at hh
    · -- the CONFERENCE_FAILED branch
      split at hh
      · exact Except.noConfusion hh
      · split at hh
        · injection hh with hh
          subst hh
          exact absurd hc (List.not_mem_nil c)
        · split at hh
          · exact Except.noConfusion hh
          · exact sendConferenceEvent_ok_mem state _ sends hh c hc
    · split at hh
      · -- the conference-lifecycle branch
        exact sendConferenceEvent_ok_mem state _ sends hh c hc
      · split at hh
        · -- the LOAD_CONFIG_ERROR branch
          split at hh
          · exact Except.noConfusion hh
          · split at hh
            · exact Except.noConfusion hh
            · injection hh with hh
              subst hh
              exact ⟨_, _, hc⟩
        · -- unmatched action kinds
          injection hh with hh
          subst hh
          exact absurd hc (List.not_mem_nil c)

/-! ### Claim C5 -/

/-- C5: symbolic-tag-to-name derivation is a deterministic function of the
tag: for every tag with description `d`, `symbol.toString()` is
`Symbol(d)`, the wrapper is stripped, and then a leading `@@` sigil is
stripped exactly once; in particular the label `@@conference.joined` yields
`conference.joined`, the label `config.load.error` is returned unchanged,
a double-sigil label keeps its second sigil (stripping happens exactly
once), and an already-derived name is a fixed point of the derivation. -/
theorem symbol_description_normalization :
    (∀ d : String, _getSymbolDescription (.sym ⟨d⟩) =
      .ok (if jsStartsWith d "@@" then jsDrop2 d else d)) ∧
    _getSymbolDescription (.sym ⟨"@@conference.joined"⟩) = .ok "conference.joined" ∧
    _getSymbolDescription (.sym ⟨"config.load.error"⟩) = .ok "config.load.error" ∧
    _getSymbolDescription (.sym ⟨"@@@@sigil.twice"⟩) = .ok "@@sigil.twice" ∧
    _getSymbolDescription (.sym ⟨"conference.joined"⟩) = .ok "conference.joined" :=
  ⟨getSymbolDescription_descr, by rfl, by rfl, by rfl, by rfl⟩

/-! ### Claim C6 -/

/-- C6 counterexample: the claim says error-to-string normalization is total
and never raises, but on the truthy non-string primitive `42` the code
applies `Error.prototype.toString` to a primitive receiver, which throws a
`TypeError`. -/
theorem toErrorString_number_throws_cex :
    _toErrorString (.num 42) = .error .typeError := by rfl

/-- C6 (amended): error-to-string normalization never raises for the
documented error shapes — a falsy/absent error yields `""`, a string error
is returned unchanged, and an object error is rendered by the standard
`Name: message` convention of `Error.prototype.toString` (just `"Error"`
when neither field is present), never by serializing arbitrary object
structure; a truthy non-string primitive error, however, raises a
`TypeError` (see the counterexample). -/
theorem toErrorString_documented_shapes (v : Value) :
    (truthy v = false → _toErrorString v = .ok "") ∧
    (∀ s, v = .str s → _toErrorString v = .ok s) ∧
    (∀ o, v = .obj o → _toErrorString v = .ok (errorProtoRender o.name o.message)) ∧
    (∀ n m r, v = .obj ⟨some n, some m, r⟩ → n ≠ "" → m ≠ "" →
      _toErrorString v = .ok (n ++ ": " ++ m)) ∧
    (∀ r, v = .obj ⟨none, none, r⟩ → _toErrorString v = .ok "Error") := by
  refine ⟨?_, ?_, ?_, ?_, ?_⟩
  · intro h; simp [_toErrorString, h]
  · rintro s rfl
    by_cases hs : s = ""
    · subst hs; rfl
    · simp [_toErrorString, truthy, hs]
  · rintro o rfl; rfl
  · rintro n m r rfl hn hm
    simp [_toErrorString, truthy, errorProtoToString, errorProtoRender, hn, hm]
  · rintro r rfl; rfl

/-- C6 witness: the amended theorem applied at the spec's own examples. -/
theorem toErrorString_documented_shapes_wit :
    _toErrorString (.obj ⟨some "TypeError", some "x is undefined", none⟩) =
        .ok "TypeError: x is undefined" ∧
    _toErrorString (.str "boom") = .ok "boom" ∧
    _toErrorString (.str "") = .ok "" ∧
    _toErrorString (.obj ⟨none, none, none⟩) = .ok "Error" :=
  ⟨(toErrorString_documented_shapes _).2.2.2.1 "TypeError" "x is undefined" none rfl
      (by decide) (by decide),
    (toErrorString_documented_shapes _).2.1 "boom" rfl,
    (toErrorString_documented_shapes _).2.1 "" rfl,
    (toErrorString_documented_shapes _).2.2.2.2 none rfl⟩

/-! ### Claim C10 -/

/-- C10: the `ConferenceFailed` handler reads `recoverable` off the error
value itself, dereferencing `error` before anything else: when the action's
`error` is `null` or `undefined` (in particular absent), the property read
`error.recoverable` throws a `TypeError` before any event is produced — and
this happens regardless of any action-level `recoverable` field, which is
never consulted (the witness carries `recoverable: true` on the action and
still throws). -/
theorem conferenceFailed_null_error_throws (state : AppSt) (a : JsObj)
    (hT : jsGet a "type" = .sym CONFERENCE_FAILED)
    (hE : jsGet a "error" = .undefined ∨ jsGet a "error" = .null) :
    middlewareHandle state a = .error .typeError ∧ bridgeSends state a = [] := by
  have hrec : getRecoverable (jsGet a "error") = .error .typeError := by
    rcases hE with hE | hE <;> rw [hE] <;> rfl
  constructor
  · simp [middlewareHandle, hT, hrec]
  · simp [bridgeSends, middlewareHandle, hT, hrec]

/-- C10 witness: a `ConferenceFailed` action with no `error` field throws a
`TypeError` and produces no event, even though the action itself carries
`recoverable: true`. -/
theorem conferenceFailed_null_error_throws_wit :
    middlewareHandle ⟨some ⟨.str "scope1"⟩⟩
        [("type", .sym CONFERENCE_FAILED), ("recoverable", .bool true)] =
      .error .typeError ∧
    bridgeSends ⟨some ⟨.str "scope1"⟩⟩
        [("type", .sym CONFERENCE_FAILED), ("recoverable", .bool true)] = [] :=
  conferenceFailed_null_error_throws _ _ (by rfl) (Or.inl (by rfl))

/-! ### Claim C1 -/

/-- C1 counterexample: the claim reads `recoverable` as a field of the
action itself; but for an action whose own `recoverable` field is `true`
while its error's `recoverable` property is `false`, the code emits one
outbound event (Host Dispatch is called), refuting the claim. -/
theorem actionRecoverable_event_sent_cex :
    (bridgeSends ⟨some ⟨.str "s"⟩⟩
      [("type", .sym CONFERENCE_FAILED), ("recoverable", .bool true),
       ("error", .obj ⟨none, none, some false⟩)]).length = 1 := by rfl

/-- C1 (amended): the recoverability filter reads the `recoverable`
property of the action's `error` value, not an action-level field: for
every `ConferenceFailed` action whose error's `recoverable` property is
truthy, no outbound event is produced and Host Dispatch is not called,
regardless of the values of all other action fields (including any
action-level `recoverable` field) and of the mounted-surface state. -/
theorem errorRecoverable_suppresses_event (state : AppSt) (a : JsObj) (r : Value)
    (hT : jsGet a "type" = .sym CONFERENCE_FAILED)
    (hr : getRecoverable (jsGet a "error") = .ok r)
    (hrt : truthy r = true) :
    middlewareHandle state a = .ok [] ∧ bridgeSends state a = [] := by
  constructor
  · simp [middlewareHandle, hT, hr, hrt]
  · simp [bridgeSends, middlewareHandle, hT, hr, hrt]

/-- C1 witness: an action whose own `recoverable` field is `false` but
whose error is recoverable is still suppressed — the error-level flag
governs. -/
theorem errorRecoverable_suppresses_event_wit :
    middlewareHandle ⟨some ⟨.str "s"⟩⟩
        [("type", .sym CONFERENCE_FAILED), ("recoverable", .bool false),
         ("error", .obj ⟨none, none, some true⟩)] = .ok [] ∧
    bridgeSends ⟨some ⟨.str "s"⟩⟩
        [("type", .sym CONFERENCE_FAILED), ("recoverable", .bool false),
         ("error", .obj ⟨none, none, some true⟩)] = [] :=
  errorRecoverable_suppresses_event _ _ (.bool true) (by rfl) (by rfl) (by rfl)

/-! ### Claim C4 -/

/-- C4: dispatching a config-load-failure action with error
`"network down"` and location URL `"http://cfg/x.json"` while a host
surface with scope `"room1"` is mounted performs exactly one Host Dispatch
call `sendEvent("config.fetch.error", { error: "network down", url:
"http://cfg/x.json" }, "room1")`; the event name is the human-readable
label of the action's `type` tag (in the code this single `type` field is
both the symbol the dispatch switch matches on and the source of the
name). -/
theorem loadConfigError_end_to_end :
    bridgeSends ⟨some ⟨.str "room1"⟩⟩
        [("type", .sym LOAD_CONFIG_ERROR), ("error", .str "network down"),
         ("locationURL", .str "http://cfg/x.json")] =
      [⟨"config.fetch.error",
        [("error", .str "network down"), ("url", .str "http://cfg/x.json")],
        .str "room1"⟩] := by rfl

/-! ### Claim C7 -/

/-- C7: when no host surface is mounted, or the mounted surface's
`externalAPIScope` is not configured (falsy), the emit step performs zero
Host Dispatch calls and raises no exception, for every event and for every
dispatched action. -/
theorem no_scope_no_send (state : AppSt)
    (h : state.app = none ∨ ∃ p, state.app = some p ∧ truthy p.externalAPIScope = false) :
    (∀ name data, _sendEvent state name data = []) ∧
    (∀ action, bridgeSends state action = []) := by
  refine ⟨fun name data => sendEvent_no_scope state h name data, fun action => ?_⟩
  rw [List.eq_nil_iff_forall_not_mem]
  intro c hc
  obtain ⟨n, d, hmem⟩ := bridgeSends_mem_sendEvent state action c hc
  rw [sendEvent_no_scope state h n d] at hmem
  exact absurd hmem (List.not_mem_nil c)

/-- C7 witness: with no app mounted, a matched conference-joined action
produces zero Host Dispatch calls. -/
theorem no_scope_no_send_wit :
    _sendEvent ⟨none⟩ "someEvent" [] = [] ∧
    bridgeSends ⟨none⟩ [("type", .sym CONFERENCE_JOINED)] = [] :=
  ⟨(no_scope_no_send ⟨none⟩ (Or.inl rfl)).1 "someEvent" [],
    (no_scope_no_send ⟨none⟩ (Or.inl rfl)).2 [("type", .sym CONFERENCE_JOINED)]⟩

/-! ### Further helper lemmas for the remaining claims -/

theorem jsGet_cons_ne (k0 : String) (v0 : Value) (rest : JsObj) (k : String) (h : ¬k0 = k) :
    jsGet ((k0, v0) :: rest) k = jsGet rest k := by
  simp [jsGet, h]

theorem jsGet_cons_eq (k : String) (v : Value) (rest : JsObj) :
    jsGet ((k, v) :: rest) k = v := by
  simp [jsGet]

theorem middlewareHandle_conferenceFailed_send (state : AppSt) (a : JsObj) (r : Value)
    (es : String)
    (hT : jsGet a "type" = .sym CONFERENCE_FAILED)
    (hr : getRecoverable (jsGet a "error") = .ok r)
    (hrf : truthy r = false)
    (hes : _toErrorString (jsGet a "error") = .ok es) :
    middlewareHandle state a =
      _sendConferenceEvent state (("error", .str es) :: jsRemove a "error") := by
  simp [middlewareHandle, hT, hr, hrf, hes]

theorem sendConferenceEvent_spec (state : AppSt) (o : JsObj) (t : Sym)
    (ht : jsGet o "type" = .sym t)
    (ap : AppProps) (happ : state.app = some ap) (hsc : truthy ap.externalAPIScope = true) :
    ∃ c : SendCall, _sendConferenceEvent state o = .ok [c] ∧
      c.scope = ap.externalAPIScope ∧
      jsHasKey c.data "conference" = false ∧
      jsHasKey c.data "type" = false ∧
      (∀ k, k ≠ "conference" → k ≠ "type" → k ≠ "url" → jsGet c.data k = jsGet o k) ∧
      (∀ u, jsGet o "conference" = .handle u → jsGet c.data "url" = toURLString u) ∧
      (truthy (jsGet o "conference") = false →
        jsHasKey c.data "url" = jsHasKey o "url" ∧ jsGet c.data "url" = jsGet o "url") := by
  have hsce := sendConferenceEvent_eq state o t ht
  rw [sendEvent_of_scope state ap happ hsc] at hsce
  obtain ⟨h1, h2, h3, h4, h5⟩ := conf_data_props o _ rfl
  exact ⟨⟨if jsStartsWith t.descr "@@" then jsDrop2 t.descr else t.descr,
      if truthy (jsGet o "conference") then
        jsSet (jsRemove (jsRemove o "conference") "type") "url"
          (toURLString (getJitsiConferenceUrl (jsGet o "conference")))
      else jsRemove (jsRemove o "conference") "type",
      ap.externalAPIScope⟩, hsce, rfl, h1, h2, h3, h4, h5⟩

theorem sendConferenceEvent_data_mem (state : AppSt) (o : JsObj) (sends : List SendCall)
    (hh : _sendConferenceEvent state o = .ok sends) (c : SendCall) (hc : c ∈ sends) :
    _getSymbolDescription (jsGet o "type") = .ok c.name ∧
    ∀ p ∈ c.data,
      (p.1 = "url" ∧ p.2 = toURLString (getJitsiConferenceUrl (jsGet o "conference"))) ∨
      (p ∈ o ∧ p.1 ≠ "conference" ∧ p.1 ≠ "type") := by
  simp only [_sendConferenceEvent] at hh
  split at hh
  · exact Except.noConfusion hh
  · rename_i nm heq
    injection hh with hh
    subst hh
    obtain ⟨hcn, hcd, _⟩ := mem_sendEvent_elim state _ _ c hc
    refine ⟨by rw [heq, hcn], ?_⟩
    intro p hp
    rw [hcd] at hp
    by_cases hconf : truthy (jsGet o "conference") = true
    · rw [if_pos hconf] at hp
      rcases mem_of_mem_jsSet _ _ _ _ hp with hp | hp
      · left
        rw [hp]
        exact ⟨rfl, rfl⟩
      · right
        obtain ⟨hp1, hne⟩ := mem_of_mem_jsRemove _ _ _ hp
        obtain ⟨hp2, hne2⟩ := mem_of_mem_jsRemove _ _ _ hp1
        exact ⟨hp2, hne2, hne⟩
    · rw [if_neg hconf] at hp
      right
      obtain ⟨hp1, hne⟩ := mem_of_mem_jsRemove _ _ _ hp
      obtain ⟨hp2, hne2⟩ := mem_of_mem_jsRemove _ _ _ hp1
      exact ⟨hp2, hne2, hne⟩

theorem primOrStr_toURLString (v : Value) : primOrStr (toURLString v) = true := by
  cases v with
  | str s => by_cases h : s = "" <;> simp [toURLString, primOrStr, h]
  | undefined => rfl
  | null => rfl
  | bool b => rfl
  | num n => rfl
  | sym s => rfl
  | obj o => rfl
  | handle u => rfl
  | urlObj h => rfl

theorem filter_callNext_map_sends (sends : List SendCall) :
    (sends.map (fun c => Effect.sendEvent c.name c.data c.scope)).filter isCallNext = [] := by
  induction sends with
  | nil => rfl
  | cons c rest ih => simp [isCallNext, ih]

theorem bridge_fst {ρ : Type} (state : AppSt) (next : JsObj → ρ) (a : JsObj) :
    (bridge state next a).1 =
      .callNext a :: (bridgeSends state a).map (fun c => .sendEvent c.name c.data c.scope) := by
  unfold bridge bridgeSends
  cases middlewareHandle state a <;> rfl

theorem bridge_snd_ok {ρ : Type} (state : AppSt) (next : JsObj → ρ) (a : JsObj) (v : ρ) :
    (bridge state next a).2 = .ok v → v = next a := by
  unfold bridge
  cases middlewareHandle state a with
  | ok sends =>
    intro hv
    have hv2 : Except.ok (next a) = Except.ok v := hv
    injection hv2 with h
    exact h.symm
  | error e =>
    intro hv
    have hv2 : (Except.error e : Except JsErr ρ) = Except.ok v := hv
    exact Except.noConfusion hv2

/-! ### Claim C2 -/

/-- C2 counterexample: the claim says the emitted `data` consists of all
action fields except `error` and `kind` with no other fields removed; but
for an unrecoverable `ConferenceFailed` action that carries a `conference`
handle, the code also removes the `conference` field (replacing it by a
`url` string), so the single emitted event's data has no `conference` key
even though the action had one. -/
theorem conferenceFailed_conference_removed_cex :
    bridgeSends ⟨some ⟨.str "s"⟩⟩
        [("type", .sym CONFERENCE_FAILED), ("error", .obj ⟨none, none, some false⟩),
         ("conference", .handle (.str "u"))] =
      [⟨"CONFERENCE_FAILED", [("error", .str "Error"), ("url", .str "u")], .str "s"⟩] ∧
    jsHasKey [("error", Value.str "Error"), ("url", Value.str "u")] "conference" = false ∧
    jsHasKey
        [("type", Value.sym CONFERENCE_FAILED), ("error", Value.obj ⟨none, none, some false⟩),
         ("conference", Value.handle (.str "u"))] "conference" = true := by
  exact ⟨by rfl, by rfl, by rfl⟩

/-- C2 (amended): for every `ConferenceFailed` action whose error's
`recoverable` property is falsy (and whose error the stringifier accepts),
while a host surface with a truthy scope is mounted, exactly one outbound
event is produced; its `data.error` is the stringified error (a string),
its data has no `conference` and no `type` (kind) key, and every other
action field except `error`, `conference`, `type` and `url` passes through
unchanged. -/
theorem conferenceFailed_unrecoverable_emits_one (state : AppSt) (a : JsObj)
    (ap : AppProps) (r : Value) (es : String)
    (hT : jsGet a "type" = .sym CONFERENCE_FAILED)
    (hr : getRecoverable (jsGet a "error") = .ok r)
    (hrf : truthy r = false)
    (hes : _toErrorString (jsGet a "error") = .ok es)
    (happ : state.app = some ap)
    (hsc : truthy ap.externalAPIScope = true) :
    ∃ c : SendCall, bridgeSends state a = [c] ∧
      jsGet c.data "error" = .str es ∧
      jsHasKey c.data "conference" = false ∧
      jsHasKey c.data "type" = false ∧
      (∀ k, k ≠ "error" → k ≠ "conference" → k ≠ "type" → k ≠ "url" →
        jsGet c.data k = jsGet a k) ∧
      c.scope = ap.externalAPIScope := by
  have hmw := middlewareHandle_conferenceFailed_send state a r es hT hr hrf hes
  have ht2 : jsGet (("error", Value.str es) :: jsRemove a "error") "type" =
      .sym CONFERENCE_FAILED := by
    rw [jsGet_cons_ne _ _ _ _ (by decide), jsGet_remove_ne a "error" "type" (by decide), hT]
  obtain ⟨c, hok, hscope, hconf, htype, hother, hurl, hnoconf⟩ :=
    sendConferenceEvent_spec state _ CONFERENCE_FAILED ht2 ap happ hsc
  refine ⟨c, ?_, ?_, hconf, htype, ?_, hscope⟩
  · simp only [bridgeSends, hmw, hok]
  · rw [hother "error" (by decide) (by decide) (by decide), jsGet_cons_eq]
  · intro k hk1 hk2 hk3 hk4
    rw [hother k hk2 hk3 hk4, jsGet_cons_ne _ _ _ _ (fun hh => hk1 hh.symm),
      jsGet_remove_ne a "error" k (fun hh => hk1 hh.symm)]

/-- C2 witness: the amended theorem at a concrete unrecoverable failure
with one pass-through field and a mounted scope — exactly one event is
produced, its error is the rendered string, its conference key is gone, and
the pass-through field survives. -/
theorem conferenceFailed_unrecoverable_emits_one_wit :
    (bridgeSends ⟨some ⟨.str "room1"⟩⟩
        [("type", .sym CONFERENCE_FAILED),
         ("error", .obj ⟨some "E", some "m", some false⟩), ("x", .num 3)]).length = 1 ∧
    jsGet [("error", Value.str "E: m"), ("x", Value.num 3)] "error" = Value.str "E: m" ∧
    jsHasKey [("error", Value.str "E: m"), ("x", Value.num 3)] "conference" = false ∧
    jsGet [("error", Value.str "E: m"), ("x", Value.num 3)] "x" =
      jsGet [("type", Value.sym CONFERENCE_FAILED),
        ("error", Value.obj ⟨some "E", some "m", some false⟩), ("x", Value.num 3)] "x" := by
  obtain ⟨c, h1, h2, h3, h4, h5, h6⟩ :=
    conferenceFailed_unrecoverable_emits_one ⟨some ⟨.str "room1"⟩⟩
      [("type", .sym CONFERENCE_FAILED),
       ("error", .obj ⟨some "E", some "m", some false⟩), ("x", .num 3)]
      ⟨Value.str "room1"⟩ (.bool false) "E: m"
      (by rfl) (by rfl) (by rfl) (by rfl) (by rfl) (by rfl)
  have hc0 : [c] =
      [(⟨"CONFERENCE_FAILED", [("error", Value.str "E: m"), ("x", Value.num 3)],
        Value.str "room1"⟩ : SendCall)] :=
    h1.symm.trans (by rfl)
  injection hc0 with hc _
  rw [hc] at h2 h3 h5
  exact ⟨by rw [h1]; rfl, h2, h3, h5 "x" (by decide) (by decide) (by decide) (by decide)⟩

/-! ### Claim C3 -/

/-- C3 counterexample: the claim says that when `conference` is absent the
emitted data has no `url` key; but a lifecycle action that carries a plain
`url` pass-through field and no `conference` handle emits data whose `url`
key is present (the pass-through value), refuting the claim as stated. -/
theorem lifecycle_passthrough_url_cex :
    bridgeSends ⟨some ⟨.str "s"⟩⟩ [("type", .sym CONFERENCE_JOINED), ("url", .str "x")] =
      [⟨"CONFERENCE_JOINED", [("url", .str "x")], .str "s"⟩] ∧
    truthy (jsGet [("type", Value.sym CONFERENCE_JOINED), ("url", Value.str "x")]
      "conference") = false ∧
    jsHasKey [("url", Value.str "x")] "url" = true := by
  exact ⟨by rfl, by rfl, by rfl⟩

/-- C3 (amended): for every conference-lifecycle action the handler raises
no error; the emitted data excludes the `conference` and `type` (kind)
fields; when a `conference` handle is present, `data.url` is the normalized
string form of the URL stored in the handle; when `conference` is absent
(falsy), the bridge adds no `url` key — the emitted data has a `url` key
(with the same value) exactly when the action itself carried one as a
pass-through field. -/
theorem lifecycle_conference_transform (state : AppSt) (a : JsObj)
    (hT : jsGet a "type" = .sym CONFERENCE_JOINED ∨ jsGet a "type" = .sym CONFERENCE_LEFT ∨
      jsGet a "type" = .sym CONFERENCE_WILL_JOIN ∨
      jsGet a "type" = .sym CONFERENCE_WILL_LEAVE) :
    ∃ sends, middlewareHandle state a = .ok sends ∧
      ∀ c ∈ sends,
        jsHasKey c.data "conference" = false ∧
        jsHasKey c.data "type" = false ∧
        (∀ u, jsGet a "conference" = .handle u → jsGet c.data "url" = toURLString u) ∧
        (truthy (jsGet a "conference") = false →
          jsHasKey c.data "url" = jsHasKey a "url" ∧ jsGet c.data "url" = jsGet a "url") := by
  have hmw : middlewareHandle state a = _sendConferenceEvent state a := by
    rcases hT with h | h | h | h <;>
      simp [middlewareHandle, h, CONFERENCE_FAILED, CONFERENCE_JOINED, CONFERENCE_LEFT,
        CONFERENCE_WILL_JOIN, CONFERENCE_WILL_LEAVE, LOAD_CONFIG_ERROR, Sym.mk.injEq]
  obtain ⟨t, ht⟩ : ∃ t : Sym, jsGet a "type" = .sym t := by
    rcases hT with h | h | h | h <;> exact ⟨_, h⟩
  have hsce := sendConferenceEvent_eq state a t ht
  obtain ⟨h1, h2, h3, h4, h5⟩ := conf_data_props a _ rfl
  refine ⟨_, hmw.trans hsce, ?_⟩
  intro c hc
  obtain ⟨hcn, hcd, _⟩ := mem_sendEvent_elim state _ _ c hc
  rw [hcd]
  exact ⟨h1, h2, h4, h5⟩

/-- C3 witness: the amended theorem at a joined action carrying a handle
whose stored URL is the spec's example URL, with a mounted scope — the
emitted data's `url` is the normalized URL string and `conference` and
`type` are gone. -/
theorem lifecycle_conference_transform_wit :
    middlewareHandle ⟨some ⟨.str "s"⟩⟩
        [("type", .sym CONFERENCE_JOINED),
         ("conference", .handle (.urlObj "https://example.com/room"))] =
      .ok [⟨"CONFERENCE_JOINED", [("url", .str "https://example.com/room")], .str "s"⟩] ∧
    jsGet [("url", Value.str "https://example.com/room")] "url" =
      Value.str "https://example.com/room" ∧
    jsHasKey [("url", Value.str "https://example.com/room")] "conference" = false ∧
    jsHasKey [("url", Value.str "https://example.com/room")] "type" = false := by
  obtain ⟨sends, hok, hall⟩ := lifecycle_conference_transform ⟨some ⟨.str "s"⟩⟩
    [("type", .sym CONFERENCE_JOINED),
     ("conference", .handle (.urlObj "https://example.com/room"))] (Or.inl (by rfl))
  have hs0 : Except.ok sends =
      Except.ok [(⟨"CONFERENCE_JOINED", [("url", Value.str "https://example.com/room")],
        Value.str "s"⟩ : SendCall)] :=
    hok.symm.trans (by rfl)
  injection hs0 with hs
  subst hs
  obtain ⟨hconf, htype, hurl, _⟩ := hall _ (List.mem_singleton.mpr rfl)
  exact ⟨hok, hurl (.urlObj "https://example.com/room") (by rfl), hconf, htype⟩

/-! ### Claim C8 -/

/-- C8 counterexample: the claim says the bridge returns exactly the value
`next` returned for every dispatched action; but on a `ConferenceFailed`
action with no `error` field the handler throws after calling `next`, so
the middleware's outcome is a `TypeError`, not `next`'s value. -/
theorem bridge_throw_result_cex :
    (bridge ⟨none⟩ (fun _ => (7 : Nat)) [("type", .sym CONFERENCE_FAILED)]).2 ≠
      .ok ((fun _ => (7 : Nat)) [("type", Value.sym CONFERENCE_FAILED)]) := by
  intro hcontr
  have h : (Except.error .typeError : Except JsErr Nat) = .ok 7 := hcontr
  exact Except.noConfusion h

/-- C8 (amended): the bridge is observational so long as its own handler
does not throw: for every dispatched action it invokes `next` exactly once,
first, with the unmodified action (the effect trace begins with that call
and contains no other `next` call), and whenever the middleware returns
normally its result is exactly the value `next` returned; on a handler
exception (see the counterexample) the exception propagates instead of
`next`'s value. -/
theorem bridge_wraps_next {ρ : Type} (state : AppSt) (next : JsObj → ρ) (a : JsObj) :
    (bridge state next a).1.head? = some (.callNext a) ∧
    (bridge state next a).1.filter isCallNext = [.callNext a] ∧
    (∀ v, (bridge state next a).2 = .ok v → v = next a) := by
  refine ⟨?_, ?_, fun v hv => bridge_snd_ok state next a v hv⟩
  · rw [bridge_fst]; rfl
  · rw [bridge_fst, List.filter_cons_of_pos (by rfl), filter_callNext_map_sends]

/-- C8 witness: the amended theorem at an unmatched action with a trivial
pipeline continuation: the trace starts with the single next-call carrying
the unmodified action, and the returned value is next's value. -/
theorem bridge_wraps_next_wit :
    (bridge ⟨none⟩ (fun _ => (0 : Nat)) [("other", .num 1)]).1.head? =
      some (.callNext [("other", .num 1)]) ∧
    (bridge ⟨none⟩ (fun _ => (0 : Nat)) [("other", .num 1)]).1.filter isCallNext =
      [.callNext [("other", .num 1)]] ∧
    (0 : Nat) = (fun _ => (0 : Nat)) [("other", Value.num 1)] :=
  ⟨(bridge_wraps_next ⟨none⟩ (fun _ => (0 : Nat)) [("other", .num 1)]).1,
    (bridge_wraps_next ⟨none⟩ (fun _ => (0 : Nat)) [("other", .num 1)]).2.1,
    (bridge_wraps_next ⟨none⟩ (fun _ => (0 : Nat)) [("other", .num 1)]).2.2 0 (by rfl)⟩

/-! ### Claim C9 -/

/-- C9 counterexample: the claim says every value in an outbound event's
data is a primitive or string for all actions including those with
arbitrary pass-through fields; but a lifecycle action carrying a symbolic
tag as a pass-through field emits that tag verbatim in its data. -/
theorem passthrough_symbol_in_data_cex :
    bridgeSends ⟨some ⟨.str "s"⟩⟩
        [("type", .sym CONFERENCE_JOINED), ("junk", .sym ⟨"tag"⟩)] =
      [⟨"CONFERENCE_JOINED", [("junk", .sym ⟨"tag"⟩)], .str "s"⟩] ∧
    primOrStr (jsGet [("junk", Value.sym ⟨"tag"⟩)] "junk") = false := by
  exact ⟨by rfl, by rfl⟩

/-- C9 (amended): every outbound event's name is the deterministic symbol
description of the triggering action's `type` (kind); the fields the bridge
itself produces (`error`, `url`) are always a string or absent; and the
data values are all primitives/strings provided the action's pass-through
fields are (pass-through fields — everything except `conference`, `type`,
and, on `ConferenceFailed`, the replaced `error` — are copied into data
verbatim, so a non-serializable pass-through value would cross the boundary
unchanged, as the counterexample shows). -/
theorem data_serializable_of_passthrough (state : AppSt) (a : JsObj)
    (h : ∀ k v, (k, v) ∈ a → k ≠ "conference" → k ≠ "type" →
      ¬(k = "error" ∧ jsGet a "type" = .sym CONFERENCE_FAILED) → primOrStr v = true) :
    ∀ c ∈ bridgeSends state a,
      _getSymbolDescription (jsGet a "type") = .ok c.name ∧
      ∀ p ∈ c.data, primOrStr p.2 = true := by
  intro c hc
  unfold bridgeSends at hc
  cases hh : middlewareHandle state a with
  | error e => rw [hh] at hc; exact absurd hc (List.not_mem_nil c)
  | ok sends =>
    rw [hh] at hc
    simp only [middlewareHandle] at hh
    split at hh
    · -- CONFERENCE_FAILED
      rename_i hT
      split at hh
      · exact Except.noConfusion hh
      · rename_i r hr
        split at hh
        · injection hh with hh
          subst hh
          exact absurd hc (List.not_mem_nil c)
        · split at hh
          · exact Except.noConfusion hh
          · rename_i es hes
            obtain ⟨hname, hdata⟩ := sendConferenceEvent_data_mem state _ sends hh c hc
            have ht2 : jsGet (("error", Value.str es) :: jsRemove a "error") "type" =
                .sym CONFERENCE_FAILED := by
              rw [jsGet_cons_ne _ _ _ _ (by decide),
                jsGet_remove_ne a "error" "type" (by decide), hT]
            constructor
            · rw [hT, ← ht2]; exact hname
            · intro p hp
              rcases hdata p hp with ⟨_, hp2⟩ | ⟨hpmem, hpc, hpt⟩
              · rw [hp2]; exact primOrStr_toURLString _
              · rcases List.mem_cons.mp hpmem with hp0 | hp0
                · rw [show p.2 = Value.str es from congrArg Prod.snd hp0]; rfl
                · obtain ⟨hpa, hpe⟩ := mem_of_mem_jsRemove _ _ _ hp0
                  exact h p.1 p.2 hpa hpc hpt (fun hcontr => hpe hcontr.1)
    · split at hh
      · -- conference lifecycle
        rename_i hnF hLC
        obtain ⟨hname, hdata⟩ := sendConferenceEvent_data_mem state _ sends hh c hc
        refine ⟨hname, ?_⟩
        intro p hp
        rcases hdata p hp with ⟨_, hp2⟩ | ⟨hpmem, hpc, hpt⟩
        · rw [hp2]; exact primOrStr_toURLString _
        · exact h p.1 p.2 hpmem hpc hpt (fun hcontr => hnF hcontr.2)
      · split at hh
        · -- LOAD_CONFIG_ERROR
          split at hh
          · exact Except.noConfusion hh
          · rename_i nm hnm
            split at hh
            · exact Except.noConfusion hh
            · rename_i es hes
              injection hh with hh
              subst hh
              obtain ⟨hcn, hcd, _⟩ := mem_sendEvent_elim state _ _ c hc
              refine ⟨by rw [hnm, hcn], ?_⟩
              intro p hp
              rw [hcd] at hp
              rcases List.mem_cons.mp hp with hp0 | hp0
              · rw [show p.2 = Value.str es from congrArg Prod.snd hp0]; rfl
              · rcases List.mem_cons.mp hp0 with hp1 | hp1
                · rw [show p.2 = toURLString (jsGet a "locationURL") from
                    congrArg Prod.snd hp1]
                  exact primOrStr_toURLString _
                · exact absurd hp1 (List.not_mem_nil p)
        · -- unmatched kinds
          injection hh with hh
          subst hh
          exact absurd hc (List.not_mem_nil c)

/-- C9 witness: the amended theorem at a joined action whose single
pass-through field is a string — the event name is the derived symbol
description of the action kind and the pass-through value in the data is a
string. -/
theorem data_serializable_of_passthrough_wit :
    _getSymbolDescription
        (jsGet [("type", Value.sym CONFERENCE_JOINED), ("x", Value.str "v")] "type") =
      .ok "CONFERENCE_JOINED" ∧
    primOrStr (Value.str "v") = true := by
  have hpass : ∀ k v, (k, v) ∈
        ([("type", Value.sym CONFERENCE_JOINED), ("x", Value.str "v")] : JsObj) →
      k ≠ "conference" → k ≠ "type" →
      ¬(k = "error" ∧
        jsGet [("type", Value.sym CONFERENCE_JOINED), ("x", Value.str "v")] "type" =
          .sym CONFERENCE_FAILED) →
      primOrStr v = true := by
    intro k v hmem _ hk2 _
    rcases List.mem_cons.mp hmem with h0 | h0
    · exact absurd (congrArg Prod.fst h0) hk2
    · rcases List.mem_cons.mp h0 with h1 | h1
      · rw [show v = Value.str "v" from congrArg Prod.snd h1]; rfl
      · exact absurd h1 (List.not_mem_nil _)
  have h := data_serializable_of_passthrough ⟨some ⟨Value.str "s"⟩⟩
    [("type", Value.sym CONFERENCE_JOINED), ("x", Value.str "v")] hpass
    ⟨"CONFERENCE_JOINED", [("x", Value.str "v")], Value.str "s"⟩ (by decide)
  exact ⟨h.1, h.2 ("x", Value.str "v") (by decide)⟩

end ExternalApiBridge
